import Mathlib

/-!
Verification of the Gmail MCP server (src/gmail/src/index.ts).

Strings passing through the MIME codec are modelled by their UTF-8 byte
sequences (`List Nat`, each entry < 256); `ascii` injects ASCII string
literals.  `Buffer.from(email).toString('base64')` is modelled by
`base64Encode`; the `.replace(/\+/g,'-').replace(/\//g,'_').replace(/=/g,'')`
pipeline by `toBase64Url`.
-/

namespace Gmail

/-- UTF-8 bytes of an ASCII string literal. -/
def ascii (s : String) : List Nat := s.data.map Char.toNat

/-- The standard base64 alphabet, as used by Buffer.toString('base64'). -/
def b64Alphabet : List Char :=
  "ABCDEFGHIJKLMNOPQRSTUVWXYZabcdefghijklmnopqrstuvwxyz0123456789+/".data

/-- The URL-safe base64 alphabet (standard with + -> - and / -> _). -/
def b64UrlAlphabet : List Char :=
  "ABCDEFGHIJKLMNOPQRSTUVWXYZabcdefghijklmnopqrstuvwxyz0123456789-_".data

def b64Char (v : Nat) : Char := b64Alphabet.getD v 'A'

def b64UrlChar (v : Nat) : Char := b64UrlAlphabet.getD v 'A'

/-- Standard base64 of a byte list, mirroring Buffer.toString('base64'):
groups of three bytes map to four alphabet characters, a final group of one
or two bytes is padded with '='. -/
def base64Encode : List Nat → List Char
  | [] => []
  | [b0] => [b64Char (b0 / 4), b64Char (b0 % 4 * 16), '=', '=']
  | [b0, b1] => [b64Char (b0 / 4), b64Char (b0 % 4 * 16 + b1 / 16),
      b64Char (b1 % 16 * 4), '=']
  | b0 :: b1 :: b2 :: rest =>
      [b64Char (b0 / 4), b64Char (b0 % 4 * 16 + b1 / 16),
       b64Char (b1 % 16 * 4 + b2 / 64), b64Char (b2 % 64)] ++ base64Encode rest

/-- One global character replacement, mirroring String.replace(/x/g, y). -/
def replaceChar (a b : Char) (s : List Char) : List Char :=
  s.map (fun c => if c = a then b else c)

/-- Removal of '=' characters, mirroring .replace(/=/g, ''). -/
def stripEq (s : List Char) : List Char := s.filter (fun c => c ≠ '=')

/-- The source's post-processing of the standard base64 string:
.replace(/\+/g, '-').replace(/\//g, '_').replace(/=/g, ''). -/
def toBase64Url (s : List Char) : List Char :=
  stripEq (replaceChar '/' '_' (replaceChar '+' '-' s))

/-- Direct URL-safe base64 encoding: the URL alphabet, no padding.  This is
the spec's description of the transmittable payload. -/
def base64UrlEncode : List Nat → List Char
  | [] => []
  | [b0] => [b64UrlChar (b0 / 4), b64UrlChar (b0 % 4 * 16)]
  | [b0, b1] => [b64UrlChar (b0 / 4), b64UrlChar (b0 % 4 * 16 + b1 / 16),
      b64UrlChar (b1 % 16 * 4)]
  | b0 :: b1 :: b2 :: rest =>
      [b64UrlChar (b0 / 4), b64UrlChar (b0 % 4 * 16 + b1 / 16),
       b64UrlChar (b1 % 16 * 4 + b2 / 64), b64UrlChar (b2 % 64)] ++
      base64UrlEncode rest

/-- Value of a URL-safe base64 character. -/
def b64UrlVal (c : Char) : Option Nat :=
  List.findIdx? (fun x => x == c) b64UrlAlphabet

/-- Decoder for unpadded URL-safe base64. -/
def base64UrlDecode : List Char → Option (List Nat)
  | [] => some []
  | [_] => none
  | [c0, c1] => do
      let v0 ← b64UrlVal c0
      let v1 ← b64UrlVal c1
      pure [v0 * 4 + v1 / 16]
  | [c0, c1, c2] => do
      let v0 ← b64UrlVal c0
      let v1 ← b64UrlVal c1
      let v2 ← b64UrlVal c2
      pure [v0 * 4 + v1 / 16, v1 % 16 * 16 + v2 / 4]
  | c0 :: c1 :: c2 :: c3 :: rest => do
      let v0 ← b64UrlVal c0
      let v1 ← b64UrlVal c1
      let v2 ← b64UrlVal c2
      let v3 ← b64UrlVal c3
      let tail ← base64UrlDecode rest
      pure ((v0 * 4 + v1 / 16) :: (v1 % 16 * 16 + v2 / 4) :: (v2 % 4 * 64 + v3) :: tail)

/-- Every entry of the list is a byte. -/
def ByteList (l : List Nat) : Prop := ∀ b ∈ l, b < 256

/-- Array.prototype.join with a separator. -/
def joinSep (sep : List Nat) : List (List Nat) → List Nat
  | [] => []
  | [x] => x
  | x :: rest => x ++ sep ++ joinSep sep rest

/-- JavaScript truthiness of an optional string-valued field: undefined and
the empty string are falsy. -/
def optTruthy : Option (List Nat) → Bool
  | none => false
  | some s => !s.isEmpty

/-- The mimeType option of gmail_send_email / gmail_draft_email (a zod enum
of three values, default 'text/plain'). -/
inductive MimeType where
  | textPlain
  | textHtml
  | multipartAlternative
deriving DecidableEq, Repr

/-- The options object of createEmailMessage, with the source's
destructuring defaults. -/
structure EmailOpts where
  cc : List (List Nat) := []
  bcc : List (List Nat) := []
  htmlBody : Option (List Nat) := none
  mimeType : MimeType := MimeType.textPlain
  inReplyTo : Option (List Nat) := none
  threadId : Option (List Nat) := none

/-- The header lines pushed before the Content-Type header
(To, Subject, then conditionally Cc, Bcc, In-Reply-To, References). -/
def baseHeaders (toAddrs : List (List Nat)) (subject : List Nat) (o : EmailOpts) :
    List (List Nat) :=
  [ascii "To: " ++ joinSep (ascii ", ") toAddrs, ascii "Subject: " ++ subject] ++
  (if o.cc.length > 0 then [ascii "Cc: " ++ joinSep (ascii ", ") o.cc] else []) ++
  (if o.bcc.length > 0 then [ascii "Bcc: " ++ joinSep (ascii ", ") o.bcc] else []) ++
  (if optTruthy o.inReplyTo then [ascii "In-Reply-To: " ++ o.inReplyTo.getD []] else []) ++
  (if optTruthy o.threadId then [ascii "References: " ++ o.threadId.getD []] else [])

/-- The boundary token: the template literal boundary_${Date.now()}, with
the Date.now() value passed in as `now`. -/
def mkBoundary (now : Nat) : List Nat :=
  ascii "boundary_" ++ (Nat.toDigits 10 now).map Char.toNat

/-- The multipart/alternative body: the source's array joined with newline. -/
def multipartBody (body html bnd : List Nat) : List Nat :=
  joinSep [10]
    [ascii "--" ++ bnd,
     ascii "Content-Type: text/plain; charset=utf-8",
     [],
     body,
     [],
     ascii "--" ++ bnd,
     ascii "Content-Type: text/html; charset=utf-8",
     [],
     html,
     [],
     ascii "--" ++ bnd ++ ascii "--"]

/-- The if/else-if/else chain of createEmailMessage: the Content-Type header
pushed, paired with the emailContent chosen. -/
def contentHeaderBody (body : List Nat) (o : EmailOpts) (now : Nat) :
    List Nat × List Nat :=
  if o.mimeType = MimeType.textHtml ∨ optTruthy o.htmlBody then
    (ascii "Content-Type: text/html; charset=utf-8",
     if optTruthy o.htmlBody then o.htmlBody.getD [] else body)
  else if o.mimeType = MimeType.multipartAlternative ∧ optTruthy o.htmlBody then
    (ascii "Content-Type: multipart/alternative; boundary=\"" ++ mkBoundary now ++ ascii "\"",
     multipartBody body (o.htmlBody.getD []) (mkBoundary now))
  else
    (ascii "Content-Type: text/plain; charset=utf-8", body)

/-- headers.join('\n') + '\n\n' + emailContent — the full email string
before base64 encoding. -/
def emailString (toAddrs : List (List Nat)) (subject body : List Nat)
    (o : EmailOpts) (now : Nat) : List Nat :=
  let hb := contentHeaderBody body o now
  joinSep [10] (baseHeaders toAddrs subject o ++ [hb.1]) ++ [10, 10] ++ hb.2

/-- createEmailMessage: the email string, standard-base64 encoded, then the
three global replaces making it URL-safe and unpadded. -/
def createEmailMessage (toAddrs : List (List Nat)) (subject body : List Nat)
    (o : EmailOpts) (now : Nat) : List Char :=
  toBase64Url (base64Encode (emailString toAddrs subject body o now))

/-- Drops everything up to and including the first blank line (two adjacent
newline bytes); the header-stripping step of the decode direction. -/
def dropThroughBlankLine : List Nat → List Nat
  | [] => []
  | [_] => []
  | a :: b :: rest =>
      if a = 10 ∧ b = 10 then rest else dropThroughBlankLine (b :: rest)

/-- Whether the byte list contains two adjacent newline bytes. -/
def hasBlankLine : List Nat → Bool
  | [] => false
  | [_] => false
  | a :: b :: rest => (a == 10 && b == 10) || hasBlankLine (b :: rest)

/-- base64url-decode a payload and strip everything through the first blank
line: the decode direction of the round-trip property. -/
def decodeAndStrip (payload : List Char) : Option (List Nat) :=
  (base64UrlDecode payload).map dropThroughBlankLine

/-- JavaScript truthiness of an optional String field. -/
def strTruthy : Option String → Bool
  | none => false
  | some s => !s.isEmpty

/-- An attachment descriptor as pushed by extractEmailContent. -/
structure AttachmentMeta where
  id : String
  filename : String
  mimeType : String
  size : Nat
deriving DecidableEq, Repr

/-- The body field of a Gmail API message part.  The source stores
body.data base64-encoded and decodes it with Buffer before appending; the
model carries the decoded content directly (as a character list), since the
claims concern the traversal and accumulation, and JavaScript truthiness of
the data field corresponds to the content being nonempty. -/
structure PartBody where
  data : Option (List Char)
  attachmentId : Option String
  size : Option Nat

/-- A Gmail API MIME part tree: mimeType, filename, body, children. -/
inductive MimePart where
  | mk (mimeType : Option String) (filename : Option String)
       (body : Option PartBody) (parts : List MimePart)

/-- The accumulated state of extractEmailContent: textContent, htmlContent
and the attachments array. -/
structure ExtractAcc where
  text : List Char
  html : List Char
  attachments : List AttachmentMeta
deriving DecidableEq

/-- The non-recursive work of processPayload on one part: the body-data
append (text/plain to text, text/html to html) followed by the
attachment push with its filename / mimeType / size fallbacks. -/
def stepPart (acc : ExtractAcc) (mt fn : Option String) (b : Option PartBody) :
    ExtractAcc :=
  let acc1 :=
    match b with
    | some pb =>
      match pb.data with
      | some d =>
        if d.isEmpty then acc
        else if mt = some "text/plain" then { acc with text := acc.text ++ d }
        else if mt = some "text/html" then { acc with html := acc.html ++ d }
        else acc
      | none => acc
    | none => acc
  match b with
  | some pb =>
    match pb.attachmentId with
    | some aid =>
      if aid.isEmpty then acc1
      else
        { acc1 with attachments := acc1.attachments ++
            [{ id := aid,
               filename :=
                 match fn with
                 | some f => if f.isEmpty then "attachment-" ++ aid else f
                 | none => "attachment-" ++ aid,
               mimeType :=
                 match mt with
                 | some m => if m.isEmpty then "application/octet-stream" else m
                 | none => "application/octet-stream",
               size :=
                 match pb.size with
                 | some n => n
                 | none => 0 }] }
    | none => acc1
  | none => acc1

mutual

/-- processPayload: handle the part itself, then recurse into part.parts in
order (part.parts.forEach). -/
def processPayload (acc : ExtractAcc) : MimePart → ExtractAcc
  | MimePart.mk mt fn b parts => processParts (stepPart acc mt fn b) parts

/-- The forEach over the children, threading the accumulated state. -/
def processParts (acc : ExtractAcc) : List MimePart → ExtractAcc
  | [] => acc
  | p :: rest => processParts (processPayload acc p) rest

end

/-- extractEmailContent: run processPayload from the empty accumulators. -/
def extractEmailContent (p : MimePart) : ExtractAcc :=
  processPayload ⟨[], [], []⟩ p

mutual

/-- All parts of the tree in document order: the part itself, then the
descendants of each child in order (pre-order). -/
def docParts : MimePart → List MimePart
  | MimePart.mk mt fn b parts => MimePart.mk mt fn b parts :: docPartsList parts

/-- Document-order parts of a forest, in order. -/
def docPartsList : List MimePart → List MimePart
  | [] => []
  | p :: rest => docParts p ++ docPartsList rest

end

/-- The text contribution of a single part: its decoded body when its
mimeType is text/plain, empty otherwise. -/
def textOf : MimePart → List Char
  | MimePart.mk mt _ b _ =>
    match b with
    | some pb =>
      match pb.data with
      | some d => if mt = some "text/plain" then d else []
      | none => []
    | none => []

/-- The html contribution of a single part: its decoded body when its
mimeType is text/html, empty otherwise. -/
def htmlOf : MimePart → List Char
  | MimePart.mk mt _ b _ =>
    match b with
    | some pb =>
      match pb.data with
      | some d => if mt = some "text/html" then d else []
      | none => []
    | none => []

/-- The attachment descriptors contributed by a single part: one descriptor
when the part carries an attachment reference, none otherwise; filename
defaults to attachment-id, mimeType to application/octet-stream, size to 0. -/
def attachOf : MimePart → List AttachmentMeta
  | MimePart.mk mt fn b _ =>
    match b with
    | some pb =>
      match pb.attachmentId with
      | some aid =>
        if aid.isEmpty then []
        else
          [{ id := aid,
             filename :=
               match fn with
               | some f => if f.isEmpty then "attachment-" ++ aid else f
               | none => "attachment-" ++ aid,
             mimeType :=
               match mt with
               | some m => if m.isEmpty then "application/octet-stream" else m
               | none => "application/octet-stream",
             size :=
               match pb.size with
               | some n => n
               | none => 0 }]
      | none => []
    | none => []

/-- Concatenation, in document order, of the text/plain bodies of a tree. -/
def docText (p : MimePart) : List Char := ((docParts p).map textOf).flatten

/-- Concatenation, in document order, of the text/html bodies of a tree. -/
def docHtml (p : MimePart) : List Char := ((docParts p).map htmlOf).flatten

/-- The attachment descriptors of a tree, one per attachment-carrying part,
in document order. -/
def docAttachments (p : MimePart) : List AttachmentMeta :=
  ((docParts p).map attachOf).flatten

/-- A per-item result of the batch tools: {messageId, success} on success,
{messageId, success: false, error} on failure. -/
structure ItemResult where
  messageId : String
  success : Bool
  error : Option String
deriving DecidableEq, Repr

/-- The inner async closure of the batch loops: invoke the per-item gateway
operation, catching a failure into a per-item record. -/
def itemResult (op : String → Except String Unit) (messageId : String) :
    ItemResult :=
  match op messageId with
  | Except.ok _ => ⟨messageId, true, none⟩
  | Except.error e => ⟨messageId, false, some e⟩

/-- Array.prototype.slice with JavaScript index semantics: negative indices
count from the end, out-of-range indices clamp. -/
def jsSlice {α : Type} (xs : List α) (start stop : Int) : List α :=
  let len : Int := xs.length
  let s := if start < 0 then max (len + start) 0 else min start len
  let e := if stop < 0 then max (len + stop) 0 else min stop len
  (xs.take e.toNat).drop s.toNat

/-- One iteration of the chunked loop at index i: slice the chunk, run every
item through the operation (Promise.all keeps input order), append the chunk
results, and advance the index by batchSize. -/
def batchStep (ids : List String) (batchSize : Int)
    (op : String → Except String Unit) (i : Int) (acc : List ItemResult) :
    Int × List ItemResult :=
  (i + batchSize, acc ++ (jsSlice ids i (i + batchSize)).map (itemResult op))

/-- The loop `for (let i = 0; i < messageIds.length; i += batchSize)` of
gmail_batch_modify_emails / gmail_batch_delete_emails, with explicit gas:
none means the gas ran out with the loop still running. -/
def batchLoop (ids : List String) (batchSize : Int)
    (op : String → Except String Unit) :
    Nat → Int → List ItemResult → Option (List ItemResult)
  | gas, i, acc =>
    if i < (ids.length : Int) then
      match gas with
      | 0 => none
      | g + 1 =>
        let st := batchStep ids batchSize op i acc
        batchLoop ids batchSize op g st.1 st.2
    else
      some acc

/-- The whole batch engine: run the loop from i = 0 with empty results.
ids.length iterations of gas suffice whenever batchSize ≥ 1. -/
def runBatch (ids : List String) (batchSize : Int)
    (op : String → Except String Unit) : Option (List ItemResult) :=
  batchLoop ids batchSize op ids.length 0 []

/-- Count of per-item successes in a result list. -/
def successCount (rs : List ItemResult) : Nat :=
  (rs.filter (fun r => r.success)).length

/-- Count of per-item failures in a result list. -/
def failureCount (rs : List ItemResult) : Nat :=
  (rs.filter (fun r => !r.success)).length

/-- An HTTP request reaching the transient OAuth callback server: whether
its URL starts with /oauth/callback, and its code and error query
parameters.  The handler never reads the error parameter. -/
structure CallbackRequest where
  isCallbackPath : Bool
  code : Option String
  errorParam : Option String

/-- The observable outcome of the callback handler on one request: the HTTP
status written (none when the handler falls through without responding),
whether server.close() ran, whether the promise resolved or rejected (none
while still pending), and the token passed to saveToken, if any. -/
structure HandlerResult (α : Type) where
  status : Option Nat
  serverClosed : Bool
  promiseOutcome : Option (Except String Unit)
  savedToken : Option α

/-- The callback handler of getAuthUrlAndWaitForCallback.  `exchange` is
oauth2Client.getToken: it returns the token set or throws.  On a callback
with a truthy code: exchange, save, 200, close, resolve; a thrown error
(including the handler's own "No authorization code received") is caught:
400, close, reject.  saveToken runs only after a successful exchange. -/
def handleCallback {α : Type} (exchange : String → Except String α)
    (req : CallbackRequest) : HandlerResult α :=
  if req.isCallbackPath then
    match req.code with
    | some c =>
      if c.isEmpty then
        ⟨some 400, true, some (Except.error "No authorization code received"), none⟩
      else
        match exchange c with
        | Except.ok t => ⟨some 200, true, some (Except.ok ()), some t⟩
        | Except.error e => ⟨some 400, true, some (Except.error e), none⟩
    | none =>
        ⟨some 400, true, some (Except.error "No authorization code received"), none⟩
  else
    ⟨none, false, none, none⟩

/-- What initializeGmailClient decides to do. -/
inductive InitAction where
  | useCached
  | useServiceAccount
  | interactiveAuth
deriving DecidableEq, Repr

/-- The decision logic of initializeGmailClient: it reads only the
gmailClient module global (still null while an interactive authorization is
awaiting its callback, since the assignment follows the await) and the
GOOGLE_APPLICATION_CREDENTIALS setting. -/
def initializeAction (gmailClient : Option Unit) (hasServiceCreds : Bool) :
    InitAction :=
  match gmailClient with
  | some _ => InitAction.useCached
  | none =>
      if hasServiceCreds then InitAction.useServiceAccount
      else InitAction.interactiveAuth

/-- The side-effecting steps of getAuthUrlAndWaitForCallback, in order. -/
inductive AuthAction where
  | generateAuthUrl
  | openBrowser
  | createServer
  | listenPort (port : Nat)
  | setTimeoutMs (ms : Nat)
deriving DecidableEq, Repr

/-- The action sequence getAuthUrlAndWaitForCallback always performs:
generate the URL, open the browser, create the callback server, listen on
port 3000, arm the 300000 ms timeout.  There is no in-flight check. -/
def authFlowActions : List AuthAction :=
  [AuthAction.generateAuthUrl, AuthAction.openBrowser, AuthAction.createServer,
   AuthAction.listenPort 3000, AuthAction.setTimeoutMs 300000]

/-- Output shape of gmail_search_emails / gmail_list_threads: either the
no-results message or the found-count plus the enriched entries shown. -/
inductive ListOutput (α : Type) where
  | noResults
  | found (total : Nat) (shown : List α)
deriving DecidableEq, Repr

/-- gmail_search_emails after the gateway list call: empty list short-circuits;
otherwise enrich messages.slice(0, Math.min(10, messages.length)), skipping
any message whose metadata fetch fails (try/continue), and report the full
match count alongside the enriched entries. -/
def searchEmailsOutput {α : Type} (messages : List String)
    (enrich : String → Option α) : ListOutput α :=
  if messages.length = 0 then ListOutput.noResults
  else
    ListOutput.found messages.length
      ((messages.take (min 10 messages.length)).filterMap enrich)

/-- gmail_list_threads after the gateway list call: empty list
short-circuits; otherwise enrich threads.slice(0, 10) (a failing fetch here
aborts the whole tool, so enrichment is total) and report the full count. -/
def listThreadsOutput {α : Type} (threads : List String)
    (enrich : String → α) : ListOutput α :=
  if threads.length = 0 then ListOutput.noResults
  else ListOutput.found threads.length ((threads.take 10).map enrich)

/-- State of the gmail-token.json file. -/
inductive TokenFileState where
  | absent
  | unreadable
  | stored (contents : String)
deriving DecidableEq

/-- fs.existsSync on the token path. -/
def tokenFileExists : TokenFileState → Bool
  | TokenFileState.absent => false
  | TokenFileState.unreadable => true
  | TokenFileState.stored _ => true

/-- fs.readFileSync on the token path: throws when unreadable. -/
def readTokenFile : TokenFileState → Except String String
  | TokenFileState.absent => Except.error "ENOENT"
  | TokenFileState.unreadable => Except.error "EACCES"
  | TokenFileState.stored s => Except.ok s

/-- The body of loadToken's try block: when the file exists, read it and
JSON.parse it (either may throw, propagated as Except.error); returning the
parsed token, or falling through to the final return null when the file is
absent. -/
def loadTokenBody {τ : Type} (parse : String → Except String τ)
    (st : TokenFileState) : Except String (Option τ) :=
  if tokenFileExists st then do
    let s ← readTokenFile st
    let t ← parse s
    pure (some t)
  else
    pure none

/-- loadToken: the try body with every thrown error caught (logged and
swallowed), falling through to return null.  The file state is returned
unchanged: loadToken performs no write or delete. -/
def loadToken {τ : Type} (parse : String → Except String τ)
    (st : TokenFileState) : Option τ × TokenFileState :=
  (match loadTokenBody parse st with
   | Except.ok r => r
   | Except.error _ => none,
   st)

/-! ## Base64 lemmas -/

theorem b64UrlVal_b64UrlChar {v : Nat} (h : v < 64) :
    b64UrlVal (b64UrlChar v) = some v := by
  have key : ∀ i : Fin 64, b64UrlVal (b64UrlChar i.val) = some i.val := by decide
  exact key ⟨v, h⟩

theorem b64Char_default {v : Nat} (h : 64 ≤ v) : b64Char v = 'A' := by
  have hl : b64Alphabet.length = 64 := by decide
  unfold b64Char
  exact List.getD_eq_default _ _ (by omega)

theorem b64UrlChar_default {v : Nat} (h : 64 ≤ v) : b64UrlChar v = 'A' := by
  have hl : b64UrlAlphabet.length = 64 := by decide
  unfold b64UrlChar
  exact List.getD_eq_default _ _ (by omega)

theorem urlmap_b64Char (v : Nat) :
    (if (if b64Char v = '+' then '-' else b64Char v) = '/' then '_'
     else if b64Char v = '+' then '-' else b64Char v) = b64UrlChar v := by
  rcases Nat.lt_or_ge v 64 with h | h
  · have key : ∀ i : Fin 64,
        (if (if b64Char i.val = '+' then '-' else b64Char i.val) = '/' then '_'
         else if b64Char i.val = '+' then '-' else b64Char i.val) =
        b64UrlChar i.val := by decide
    exact key ⟨v, h⟩
  · rw [b64Char_default h, b64UrlChar_default h]
    decide

theorem b64UrlChar_ne_pad (v : Nat) : b64UrlChar v ≠ '=' := by
  rcases Nat.lt_or_ge v 64 with h | h
  · have key : ∀ i : Fin 64, b64UrlChar i.val ≠ '=' := by decide
    exact key ⟨v, h⟩
  · rw [b64UrlChar_default h]
    decide

theorem toBase64Url_base64Encode :
    ∀ bs : List Nat, toBase64Url (base64Encode bs) = base64UrlEncode bs
  | [] => rfl
  | [b0] => by
    simp only [base64Encode, base64UrlEncode, toBase64Url, replaceChar, stripEq,
      List.map_cons, List.map_nil, List.filter_cons, List.filter_nil,
      urlmap_b64Char]
    simp [b64UrlChar_ne_pad]
  | [b0, b1] => by
    simp only [base64Encode, base64UrlEncode, toBase64Url, replaceChar, stripEq,
      List.map_cons, List.map_nil, List.filter_cons, List.filter_nil,
      urlmap_b64Char]
    simp [b64UrlChar_ne_pad]
  | b0 :: b1 :: b2 :: rest => by
    have ih := toBase64Url_base64Encode rest
    simp only [toBase64Url, replaceChar, stripEq] at ih ⊢
    simp only [base64Encode, base64UrlEncode, List.map_append, List.filter_append,
      List.map_cons, List.map_nil, List.filter_cons, List.filter_nil,
      urlmap_b64Char, ih]
    simp [b64UrlChar_ne_pad]

theorem base64UrlDecode_base64UrlEncode :
    ∀ bs : List Nat, ByteList bs →
      base64UrlDecode (base64UrlEncode bs) = some bs
  | [], _ => rfl
  | [b0], h => by
    have hb0 : b0 < 256 := h b0 (by simp)
    rw [base64UrlEncode, base64UrlDecode,
      b64UrlVal_b64UrlChar (by omega : b0 / 4 < 64),
      b64UrlVal_b64UrlChar (by omega : b0 % 4 * 16 < 64)]
    simp only [Option.bind_eq_bind, Option.some_bind, Option.pure_def]
    have : b0 / 4 * 4 + b0 % 4 * 16 / 16 = b0 := by omega
    rw [this]
  | [b0, b1], h => by
    have hb0 : b0 < 256 := h b0 (by simp)
    have hb1 : b1 < 256 := h b1 (by simp)
    rw [base64UrlEncode, base64UrlDecode,
      b64UrlVal_b64UrlChar (by omega : b0 / 4 < 64),
      b64UrlVal_b64UrlChar (by omega : b0 % 4 * 16 + b1 / 16 < 64),
      b64UrlVal_b64UrlChar (by omega : b1 % 16 * 4 < 64)]
    simp only [Option.bind_eq_bind, Option.some_bind, Option.pure_def]
    have e0 : b0 / 4 * 4 + (b0 % 4 * 16 + b1 / 16) / 16 = b0 := by omega
    have e1 : (b0 % 4 * 16 + b1 / 16) % 16 * 16 + b1 % 16 * 4 / 4 = b1 := by omega
    rw [e0, e1]
  | b0 :: b1 :: b2 :: rest, h => by
    have hb0 : b0 < 256 := h b0 (by simp)
    have hb1 : b1 < 256 := h b1 (by simp)
    have hb2 : b2 < 256 := h b2 (by simp)
    have hrest : ByteList rest := fun b hb => h b (by simp [hb])
    have ih := base64UrlDecode_base64UrlEncode rest hrest
    have hshape : base64UrlEncode (b0 :: b1 :: b2 :: rest) =
        b64UrlChar (b0 / 4) :: b64UrlChar (b0 % 4 * 16 + b1 / 16) ::
        b64UrlChar (b1 % 16 * 4 + b2 / 64) :: b64UrlChar (b2 % 64) ::
        base64UrlEncode rest := by
      rw [base64UrlEncode]; rfl
    rw [hshape, base64UrlDecode,
      b64UrlVal_b64UrlChar (by omega : b0 / 4 < 64),
      b64UrlVal_b64UrlChar (by omega : b0 % 4 * 16 + b1 / 16 < 64),
      b64UrlVal_b64UrlChar (by omega : b1 % 16 * 4 + b2 / 64 < 64),
      b64UrlVal_b64UrlChar (by omega : b2 % 64 < 64), ih]
    simp only [Option.bind_eq_bind, Option.some_bind, Option.pure_def]
    have e0 : b0 / 4 * 4 + (b0 % 4 * 16 + b1 / 16) / 16 = b0 := by omega
    have e1 : (b0 % 4 * 16 + b1 / 16) % 16 * 16 +
        (b1 % 16 * 4 + b2 / 64) / 4 = b1 := by omega
    have e2 : (b1 % 16 * 4 + b2 / 64) % 4 * 64 + b2 % 64 = b2 := by omega
    rw [e0, e1, e2]

instance (l : List Nat) : Decidable (ByteList l) :=
  inferInstanceAs (Decidable (∀ b ∈ l, b < 256))

/-! ## Header / blank-line lemmas -/

theorem joinSep_cons_cons (sep x y : List Nat) (rest : List (List Nat)) :
    joinSep sep (x :: y :: rest) = x ++ sep ++ joinSep sep (y :: rest) := rfl

theorem ByteList.append {x y : List Nat} (hx : ByteList x) (hy : ByteList y) :
    ByteList (x ++ y) := by
  intro b hb
  rcases List.mem_append.mp hb with h | h
  · exact hx b h
  · exact hy b h

theorem not_mem_append_of {b : Nat} {x y : List Nat} (hx : b ∉ x) (hy : b ∉ y) :
    b ∉ x ++ y := by
  intro hb
  rcases List.mem_append.mp hb with h | h
  · exact hx h
  · exact hy h

theorem ByteList_joinSep {sep : List Nat} (hsep : ByteList sep) :
    ∀ xs : List (List Nat), (∀ x ∈ xs, ByteList x) → ByteList (joinSep sep xs)
  | [], _ => by intro b hb; simp [joinSep] at hb
  | [x], h => by simpa [joinSep] using h x (by simp)
  | x :: y :: rest, h => by
    rw [joinSep_cons_cons]
    exact ((h x (by simp)).append hsep).append
      (ByteList_joinSep hsep (y :: rest) (fun z hz => h z (by simp at hz ⊢; tauto)))

theorem not_mem_joinSep {b : Nat} {sep : List Nat} (hsep : b ∉ sep) :
    ∀ xs : List (List Nat), (∀ x ∈ xs, b ∉ x) → b ∉ joinSep sep xs
  | [], _ => by simp [joinSep]
  | [x], h => by simpa [joinSep] using h x (by simp)
  | x :: y :: rest, h => by
    rw [joinSep_cons_cons]
    exact not_mem_append_of (not_mem_append_of (h x (by simp)) hsep)
      (not_mem_joinSep hsep (y :: rest) (fun z hz => h z (by simp at hz ⊢; tauto)))

theorem hasBlankLine_of_not_mem :
    ∀ l : List Nat, 10 ∉ l → hasBlankLine l = false
  | [], _ => rfl
  | [_], _ => rfl
  | a :: b :: rest, h => by
    have ha : ¬a = 10 := fun e => h (by simp [e])
    have h2 : 10 ∉ b :: rest := fun e => h (by simp at e ⊢; tauto)
    rw [hasBlankLine, hasBlankLine_of_not_mem (b :: rest) h2]
    simp [ha]

theorem getLast?_ne_of_not_mem {b : Nat} :
    ∀ l : List Nat, b ∉ l → l.getLast? ≠ some b
  | [], _ => by simp
  | [a], h => by
    have : ¬a = b := fun e => h (by simp [e])
    simpa using this
  | a :: c :: rest, h => by
    rw [List.getLast?_cons_cons]
    exact getLast?_ne_of_not_mem (c :: rest) (fun e => h (by simp at e ⊢; tauto))

theorem head?_ne_of_not_mem {b : Nat} :
    ∀ l : List Nat, b ∉ l → l.head? ≠ some b
  | [], _ => by simp
  | a :: rest, h => by
    have : ¬a = b := fun e => h (by simp [e])
    simpa using this

theorem hasBlankLine_append_cons :
    ∀ x : List Nat, ∀ {m : List Nat}, 10 ∉ x → m.head? ≠ some 10 →
      hasBlankLine m = false → hasBlankLine (x ++ 10 :: m) = false
  | [], m, _, hh, hm => by
    match m with
    | [] => rfl
    | c :: t =>
      have hc : ¬c = 10 := by simpa [eq_comm] using hh
      rw [List.nil_append, hasBlankLine, hm]
      simp [hc]
  | [a], m, hx, hh, hm => by
    have ha : ¬a = 10 := fun e => hx (by simp [e])
    have base := hasBlankLine_append_cons [] (by simp) hh hm
    rw [List.singleton_append, hasBlankLine]
    rw [List.nil_append] at base
    rw [base]
    simp [ha]
  | a :: b :: t, m, hx, hh, hm => by
    have ha : ¬a = 10 := fun e => hx (by simp [e])
    have h2 : 10 ∉ b :: t := fun e => hx (by simp at e ⊢; tauto)
    have tail := hasBlankLine_append_cons (b :: t) h2 hh hm
    rw [List.cons_append, List.cons_append, hasBlankLine]
    rw [List.cons_append] at tail
    rw [tail]
    simp [ha]

theorem dropThroughBlankLine_append :
    ∀ hdr : List Nat, ∀ {bdy : List Nat}, hasBlankLine hdr = false →
      hdr.getLast? ≠ some 10 →
      dropThroughBlankLine (hdr ++ 10 :: 10 :: bdy) = bdy
  | [], bdy, _, _ => by
    rw [List.nil_append, dropThroughBlankLine]
    simp
  | [a], bdy, _, hl => by
    have ha : ¬a = 10 := by simpa [eq_comm] using hl
    have base := @dropThroughBlankLine_append [] bdy rfl (by simp)
    rw [List.nil_append] at base
    rw [List.singleton_append, dropThroughBlankLine, if_neg (by tauto), base]
  | a :: b :: t, bdy, hb, hl => by
    have hab : ¬(a = 10 ∧ b = 10) := by
      intro hand
      rw [hasBlankLine, hand.1, hand.2] at hb
      simp at hb
    have hb2 : hasBlankLine (b :: t) = false := by
      rw [hasBlankLine] at hb
      exact (Bool.or_eq_false_iff.mp hb).2
    have hl2 : (b :: t).getLast? ≠ some 10 := by
      rwa [List.getLast?_cons_cons] at hl
    have tail := @dropThroughBlankLine_append (b :: t) bdy hb2 hl2
    rw [List.cons_append, List.cons_append, dropThroughBlankLine,
      if_neg hab]
    rw [List.cons_append] at tail
    exact tail

theorem joinSep_cons_ne_nil {sep y : List Nat} (hy : y ≠ []) :
    ∀ rest : List (List Nat), joinSep sep (y :: rest) ≠ []
  | [] => by simpa [joinSep] using hy
  | r :: rs => by
    rw [joinSep_cons_cons]
    simp [hy]

theorem getLast?_append_cons_ne {x m : List Nat} (hmne : m ≠ [])
    (hml : m.getLast? ≠ some 10) : (x ++ 10 :: m).getLast? ≠ some 10 := by
  match m, hmne with
  | mh :: mt, _ =>
    rw [List.getLast?_append, List.getLast?_cons_cons]
    cases hg : (mh :: mt).getLast? with
    | none =>
      have : (mh :: mt : List Nat) = [] := List.getLast?_eq_none_iff.mp hg
      simp at this
    | some v =>
      rw [hg] at hml
      simpa using hml

theorem joinSep_header_props :
    ∀ lines : List (List Nat), (∀ l ∈ lines, l ≠ [] ∧ 10 ∉ l) →
      hasBlankLine (joinSep [10] lines) = false ∧
      (joinSep [10] lines).getLast? ≠ some 10 ∧
      (joinSep [10] lines).head? ≠ some 10
  | [], _ => ⟨rfl, by simp [joinSep], by simp [joinSep]⟩
  | [x], h => by
    obtain ⟨hne, hnm⟩ := h x (by simp)
    exact ⟨hasBlankLine_of_not_mem x hnm, getLast?_ne_of_not_mem x hnm,
      head?_ne_of_not_mem x hnm⟩
  | x :: y :: rest, h => by
    obtain ⟨hxne, hxnm⟩ := h x (by simp)
    obtain ⟨hm, hmlast, hmhead⟩ := joinSep_header_props (y :: rest)
      (fun z hz => h z (by simp at hz ⊢; tauto))
    have hyne : y ≠ [] := (h y (by simp)).1
    have hmne : joinSep [10] (y :: rest) ≠ [] := joinSep_cons_ne_nil hyne rest
    have hshape : joinSep [10] (x :: y :: rest) =
        x ++ 10 :: joinSep [10] (y :: rest) := by
      rw [joinSep_cons_cons]
      simp
    refine ⟨?_, ?_, ?_⟩
    · rw [hshape]
      exact hasBlankLine_append_cons x hxnm hmhead hm
    · rw [hshape]
      exact getLast?_append_cons_ne hmne hmlast
    · rw [hshape]
      match x, hxne with
      | xh :: xt, _ =>
        have : ¬xh = 10 := fun e => hxnm (by simp [e])
        simpa [List.cons_append] using this

/-! ## MIME codec theorems (C1, C2, C3) -/

theorem mem_ite_singleton {c : Prop} [Decidable c] {l x : List Nat}
    (h : l ∈ (if c then [x] else [])) : l = x := by
  split at h
  · simpa using h
  · simp at h

theorem headerLine_wf_of {pre content : List Nat}
    (hpre : pre ≠ [] ∧ 10 ∉ pre ∧ ByteList pre)
    (hcb : ByteList content) (hcn : 10 ∉ content) :
    ((pre ++ content ≠ [] ∧ 10 ∉ pre ++ content) ∧ ByteList (pre ++ content)) := by
  obtain ⟨h1, h2, h3⟩ := hpre
  refine ⟨⟨?_, not_mem_append_of h2 hcn⟩, h3.append hcb⟩
  intro e
  exact h1 (List.append_eq_nil.mp e).1

theorem headerLines_wf (toAddrs : List (List Nat)) (subject : List Nat)
    (o : EmailOpts)
    (hto : ∀ a ∈ toAddrs, ByteList a ∧ 10 ∉ a)
    (hsubB : ByteList subject) (hsubN : 10 ∉ subject)
    (hcc : ∀ a ∈ o.cc, ByteList a ∧ 10 ∉ a)
    (hbcc : ∀ a ∈ o.bcc, ByteList a ∧ 10 ∉ a)
    (hirt : ∀ s, o.inReplyTo = some s → ByteList s ∧ 10 ∉ s)
    (htid : ∀ s, o.threadId = some s → ByteList s ∧ 10 ∉ s) :
    ∀ l ∈ baseHeaders toAddrs subject o ++
        [ascii "Content-Type: text/plain; charset=utf-8"],
      ((l ≠ [] ∧ 10 ∉ l) ∧ ByteList l) := by
  intro l hl
  rw [baseHeaders] at hl
  simp only [List.append_assoc, List.mem_append, List.cons_append,
    List.nil_append, List.mem_cons, List.not_mem_nil, or_false] at hl
  rcases hl with h | h | h | h | h | h | h
  · subst h
    exact headerLine_wf_of (by decide)
      (ByteList_joinSep (by decide) toAddrs (fun a ha => (hto a ha).1))
      (not_mem_joinSep (by decide) toAddrs (fun a ha => (hto a ha).2))
  · subst h
    exact headerLine_wf_of (by decide) hsubB hsubN
  · rw [mem_ite_singleton h]
    exact headerLine_wf_of (by decide)
      (ByteList_joinSep (by decide) o.cc (fun a ha => (hcc a ha).1))
      (not_mem_joinSep (by decide) o.cc (fun a ha => (hcc a ha).2))
  · rw [mem_ite_singleton h]
    exact headerLine_wf_of (by decide)
      (ByteList_joinSep (by decide) o.bcc (fun a ha => (hbcc a ha).1))
      (not_mem_joinSep (by decide) o.bcc (fun a ha => (hbcc a ha).2))
  · rw [mem_ite_singleton h]
    cases hir : o.inReplyTo with
    | none => exact headerLine_wf_of (by decide) (by simp [ByteList]) (by simp)
    | some s =>
      obtain ⟨hb, hn⟩ := hirt s hir
      exact headerLine_wf_of (by decide) (by simpa using hb) (by simpa using hn)
  · rw [mem_ite_singleton h]
    cases hti : o.threadId with
    | none => exact headerLine_wf_of (by decide) (by simp [ByteList]) (by simp)
    | some s =>
      obtain ⟨hb, hn⟩ := htid s hti
      exact headerLine_wf_of (by decide) (by simpa using hb) (by simpa using hn)
  · subst h
    exact ⟨⟨by decide, by decide⟩, by decide⟩

theorem contentHeaderBody_none (body : List Nat) (o : EmailOpts) (now : Nat)
    (hhtml : o.htmlBody = none) (hmime : o.mimeType ≠ MimeType.textHtml) :
    contentHeaderBody body o now =
      (ascii "Content-Type: text/plain; charset=utf-8", body) := by
  have h1 : ¬(o.mimeType = MimeType.textHtml ∨ optTruthy o.htmlBody = true) := by
    rw [hhtml]
    simp [optTruthy, hmime]
  have h2 : ¬(o.mimeType = MimeType.multipartAlternative ∧
      optTruthy o.htmlBody = true) := by
    rw [hhtml]
    simp [optTruthy]
  rw [contentHeaderBody, if_neg h1, if_neg h2]

theorem emailString_plain (toAddrs : List (List Nat)) (subject body : List Nat)
    (o : EmailOpts) (now : Nat)
    (hhtml : o.htmlBody = none) (hmime : o.mimeType ≠ MimeType.textHtml) :
    emailString toAddrs subject body o now =
      joinSep [10] (baseHeaders toAddrs subject o ++
        [ascii "Content-Type: text/plain; charset=utf-8"]) ++
      10 :: 10 :: body := by
  rw [emailString, contentHeaderBody_none body o now hhtml hmime]
  simp

/-- C1: the source's explicit multipart/alternative branch is unreachable:
whenever mimeType is multipart/alternative and htmlBody is present, the
first branch (mimeType === 'text/html' || htmlBody) captures the input, so
createEmailMessage emits a single-part text/html message whose body is the
html body alone — the plain body is dropped, no boundary is generated and
no two sub-parts exist, contradicting the documented multipart behaviour. -/
theorem claim_C1_behavior :
    emailString [ascii "a@b"] (ascii "s") (ascii "p")
      { htmlBody := some (ascii "<h>"),
        mimeType := MimeType.multipartAlternative } 7 =
    ascii "To: a@b\nSubject: s\nContent-Type: text/html; charset=utf-8\n\n<h>" := by
  decide

/-- C2: with content_mode alternative (mimeType multipart/alternative) and
html_body absent, createEmailMessage takes the final else branch: the
Content-Type header is text/plain and the body is plain_body; the payload
equals the one built in plain mode, so no empty alternative branch is
produced. -/
theorem claim_C2 (toAddrs : List (List Nat)) (subject body : List Nat)
    (o : EmailOpts) (now : Nat)
    (hmime : o.mimeType = MimeType.multipartAlternative)
    (hhtml : o.htmlBody = none) :
    contentHeaderBody body o now =
      (ascii "Content-Type: text/plain; charset=utf-8", body) ∧
    createEmailMessage toAddrs subject body o now =
      createEmailMessage toAddrs subject body
        { o with mimeType := MimeType.textPlain } now := by
  have hne : o.mimeType ≠ MimeType.textHtml := by rw [hmime]; intro h; cases h
  refine ⟨contentHeaderBody_none body o now hhtml hne, ?_⟩
  rw [createEmailMessage, createEmailMessage,
    emailString_plain toAddrs subject body o now hhtml hne,
    emailString_plain toAddrs subject body
      { o with mimeType := MimeType.textPlain } now hhtml
      (by intro h; cases h)]
  rfl

/-- C2 witness: a concrete alternative-mode spec without htmlBody builds
exactly the plain-mode payload. -/
theorem claim_C2_witness :
    contentHeaderBody (ascii "p")
        { mimeType := MimeType.multipartAlternative } 3 =
      (ascii "Content-Type: text/plain; charset=utf-8", ascii "p") ∧
    createEmailMessage [ascii "a@b"] (ascii "s") (ascii "p")
        { mimeType := MimeType.multipartAlternative } 3 =
      createEmailMessage [ascii "a@b"] (ascii "s") (ascii "p")
        { mimeType := MimeType.textPlain } 3 :=
  claim_C2 [ascii "a@b"] (ascii "s") (ascii "p")
    { mimeType := MimeType.multipartAlternative } 3 rfl rfl

/-- C3 (amended): the returned payload is always the URL-safe base64
encoding (standard base64 with + replaced by -, / replaced by _ and =
stripped) of headers ++ blank line ++ body; and for a plain-mode spec
(mimeType text/plain, htmlBody absent) whose header fields are newline-free
byte strings, base64url-decoding the payload and stripping everything
through the first blank line recovers exactly the original plain body. -/
theorem claim_C3 :
    (∀ (toAddrs : List (List Nat)) (subject body : List Nat) (o : EmailOpts)
        (now : Nat),
        createEmailMessage toAddrs subject body o now =
          base64UrlEncode (emailString toAddrs subject body o now)) ∧
    (∀ (toAddrs : List (List Nat)) (subject body : List Nat) (o : EmailOpts)
        (now : Nat),
        o.mimeType = MimeType.textPlain → o.htmlBody = none →
        (∀ a ∈ toAddrs, ByteList a ∧ 10 ∉ a) →
        ByteList subject → 10 ∉ subject →
        ByteList body →
        (∀ a ∈ o.cc, ByteList a ∧ 10 ∉ a) →
        (∀ a ∈ o.bcc, ByteList a ∧ 10 ∉ a) →
        (∀ s, o.inReplyTo = some s → ByteList s ∧ 10 ∉ s) →
        (∀ s, o.threadId = some s → ByteList s ∧ 10 ∉ s) →
        decodeAndStrip (createEmailMessage toAddrs subject body o now) =
          some body) := by
  constructor
  · intro toAddrs subject body o now
    rw [createEmailMessage, toBase64Url_base64Encode]
  · intro toAddrs subject body o now hmime hhtml hto hsubB hsubN hbodyB hcc
      hbcc hirt htid
    have hne : o.mimeType ≠ MimeType.textHtml := by rw [hmime]; intro h; cases h
    have hwf := headerLines_wf toAddrs subject o hto hsubB hsubN hcc hbcc hirt htid
    have hes := emailString_plain toAddrs subject body o now hhtml hne
    have hjp := joinSep_header_props
      (baseHeaders toAddrs subject o ++
        [ascii "Content-Type: text/plain; charset=utf-8"])
      (fun l hl => (hwf l hl).1)
    have hbytes : ByteList (emailString toAddrs subject body o now) := by
      rw [hes]
      exact (ByteList_joinSep (by decide) _ (fun l hl => (hwf l hl).2)).append
        (fun b hb => by
          simp only [List.mem_cons] at hb
          rcases hb with h | h | h
          · omega
          · omega
          · exact hbodyB b h)
    rw [decodeAndStrip, createEmailMessage, toBase64Url_base64Encode,
      base64UrlDecode_base64UrlEncode _ hbytes, Option.map_some', hes,
      dropThroughBlankLine_append _ hjp.1 hjp.2.1]

/-- C3 witness: a concrete plain-mode spec round-trips through the payload
back to its plain body. -/
theorem claim_C3_witness :
    decodeAndStrip (createEmailMessage [ascii "a@b.c"] (ascii "Hi")
      (ascii "hello") {} 0) = some (ascii "hello") :=
  claim_C3.2 [ascii "a@b.c"] (ascii "Hi") (ascii "hello") {} 0 rfl rfl
    (by decide) (by decide) (by decide) (by decide) (by decide) (by decide)
    (fun s h => by cases h) (fun s h => by cases h)

/-- C3 counterexample: the claim quantifies over every spec, but a subject
containing a blank line shifts the first blank line of the decoded message
into the headers, so stripping through the first blank line does not
recover plain_body. -/
theorem claim_C3_counterexample :
    decodeAndStrip (createEmailMessage [ascii "a@b"]
      (ascii "x" ++ 10 :: 10 :: ascii "y") (ascii "p") {} 0) ≠
    some (ascii "p") := by
  rw [createEmailMessage, toBase64Url_base64Encode, decodeAndStrip,
    base64UrlDecode_base64UrlEncode _ (by decide), Option.map_some']
  decide

/-! ## Extraction theorems (C4) -/

theorem stepPart_eq (acc : ExtractAcc) (mt fn : Option String)
    (b : Option PartBody) (parts : List MimePart) :
    stepPart acc mt fn b =
      ⟨acc.text ++ textOf (MimePart.mk mt fn b parts),
       acc.html ++ htmlOf (MimePart.mk mt fn b parts),
       acc.attachments ++ attachOf (MimePart.mk mt fn b parts)⟩ := by
  rcases acc with ⟨t, h, a⟩
  rcases b with _ | ⟨d, aid, sz⟩
  · simp [stepPart, textOf, htmlOf, attachOf]
  · rcases d with _ | d
    · rcases aid with _ | aid
      · simp [stepPart, textOf, htmlOf, attachOf]
      · simp only [stepPart, textOf, htmlOf, attachOf]
        split_ifs <;> simp
    · rcases aid with _ | aid
      · simp only [stepPart, textOf, htmlOf, attachOf]
        split_ifs with h1 h2 h3 <;>
          simp_all [List.isEmpty_iff]
      · simp only [stepPart, textOf, htmlOf, attachOf]
        split_ifs <;> simp_all [List.isEmpty_iff]

mutual

theorem processPayload_eq (acc : ExtractAcc) (p : MimePart) :
    processPayload acc p =
      ⟨acc.text ++ docText p, acc.html ++ docHtml p,
       acc.attachments ++ docAttachments p⟩ := by
  match p with
  | MimePart.mk mt fn b parts =>
    rw [processPayload, processParts_eq, stepPart_eq acc mt fn b parts]
    simp [docText, docHtml, docAttachments, docParts, List.append_assoc]

theorem processParts_eq (acc : ExtractAcc) (ps : List MimePart) :
    processParts acc ps =
      ⟨acc.text ++ ((docPartsList ps).map textOf).flatten,
       acc.html ++ ((docPartsList ps).map htmlOf).flatten,
       acc.attachments ++ ((docPartsList ps).map attachOf).flatten⟩ := by
  match ps with
  | [] => simp [processParts, docPartsList]
  | p :: rest =>
    rw [processParts, processParts_eq (processPayload acc p) rest,
      processPayload_eq acc p]
    simp [docPartsList, docText, docHtml, docAttachments, List.append_assoc]

end

/-- C4: extractEmailContent returns exactly the document-order (pre-order,
children in order) concatenation of text/plain bodies as text, of text/html
bodies as html, and one attachment descriptor per attachment-carrying part
in document order, with filename defaulting to attachment-id and mimeType
to application/octet-stream. -/
theorem claim_C4 (p : MimePart) :
    extractEmailContent p = ⟨docText p, docHtml p, docAttachments p⟩ := by
  rw [extractEmailContent, processPayload_eq]
  simp

/-! ## Batch engine theorems (C5, C9) -/

theorem jsSlice_chunk (ids : List String) (i bs : Int) (hi : 0 ≤ i)
    (hbs : 1 ≤ bs) :
    jsSlice ids i (i + bs) ++ ids.drop (i + bs).toNat = ids.drop i.toNat := by
  have h0 : ¬ i < 0 := by omega
  have h1 : ¬ i + bs < 0 := by omega
  rcases Int.le_or_lt (ids.length : Int) i with hge | hlt
  · have e1 : ids.drop i.toNat = [] := List.drop_eq_nil_of_le (by omega)
    have e2 : ids.drop (i + bs).toNat = [] := List.drop_eq_nil_of_le (by omega)
    have e3 : jsSlice ids i (i + bs) = [] := by
      simp only [jsSlice, if_neg h0, if_neg h1]
      refine List.drop_eq_nil_of_le ?_
      have := List.length_take (min (i + bs) (ids.length : Int)).toNat ids
      omega
    rw [e1, e2, e3, List.append_nil]
  · simp only [jsSlice, if_neg h0, if_neg h1]
    rw [min_eq_left (le_of_lt hlt), List.drop_take]
    rcases Int.le_or_lt (i + bs) (ids.length : Int) with hA | hB
    · rw [min_eq_left hA]
      have ek : ((i + bs).toNat - i.toNat) = bs.toNat := by omega
      have ed : ids.drop (i + bs).toNat = (ids.drop i.toNat).drop bs.toNat := by
        rw [List.drop_drop]
        congr 1
        omega
      rw [ek, ed, List.take_append_drop]
    · rw [min_eq_right (le_of_lt hB)]
      have e2 : ids.drop (i + bs).toNat = [] := List.drop_eq_nil_of_le (by omega)
      have e3 : (ids.drop i.toNat).take ((ids.length : Int).toNat - i.toNat) =
          ids.drop i.toNat := by
        refine List.take_of_length_le ?_
        simp only [List.length_drop]
        omega
      rw [e2, e3, List.append_nil]

theorem jsSlice_zero_step (ids : List String) (i : Int) :
    jsSlice ids i (i + 0) = [] := by
  simp only [jsSlice, Int.add_zero]
  split_ifs with h
  · refine List.drop_eq_nil_of_le ?_
    have := List.length_take (max ((ids.length : Int) + i) 0).toNat ids
    omega
  · refine List.drop_eq_nil_of_le ?_
    have := List.length_take (min i (ids.length : Int)).toNat ids
    omega

theorem batchLoop_pos (ids : List String) (bs : Int)
    (op : String → Except String Unit) (hbs : 1 ≤ bs) :
    ∀ (gas : Nat) (i : Int) (acc : List ItemResult), 0 ≤ i →
      (ids.length : Int) ≤ i + gas →
      batchLoop ids bs op gas i acc =
        some (acc ++ (ids.drop i.toNat).map (itemResult op))
  | 0, i, acc, hi, hg => by
    rw [batchLoop, if_neg (by omega)]
    have : ids.drop i.toNat = [] := List.drop_eq_nil_of_le (by omega)
    rw [this]
    simp
  | gas + 1, i, acc, hi, hg => by
    rw [batchLoop]
    split_ifs with hlt
    · show batchLoop ids bs op gas (i + bs)
        (acc ++ (jsSlice ids i (i + bs)).map (itemResult op)) = _
      rw [batchLoop_pos ids bs op hbs gas (i + bs) _ (by omega) (by omega)]
      rw [List.append_assoc, ← List.map_append, jsSlice_chunk ids i bs hi hbs]
    · have : ids.drop i.toNat = [] := List.drop_eq_nil_of_le (by omega)
      rw [this]
      simp

theorem batchLoop_nonpos (ids : List String) (bs : Int)
    (op : String → Except String Unit) (hbs : bs ≤ 0) :
    ∀ (gas : Nat) (i : Int) (acc : List ItemResult),
      i < (ids.length : Int) → batchLoop ids bs op gas i acc = none
  | 0, i, acc, hlt => by rw [batchLoop, if_pos hlt]
  | gas + 1, i, acc, hlt => by
    rw [batchLoop, if_pos hlt]
    exact batchLoop_nonpos ids bs op hbs gas (i + bs) _ (by omega)

theorem itemResult_messageId (op : String → Except String Unit) (s : String) :
    (itemResult op s).messageId = s := by
  rw [itemResult]
  cases op s <;> rfl

theorem length_filter_add_length_filter_not {α : Type} (p : α → Bool) :
    ∀ l : List α, (l.filter p).length + (l.filter (fun a => !p a)).length = l.length
  | [] => rfl
  | a :: rest => by
    have ih := length_filter_add_length_filter_not p rest
    by_cases h : p a <;> simp [List.filter_cons, h] <;> omega

/-- C5: for batchSize ≥ 1 the chunked batch loop returns exactly one result
per input id, in input order (Promise.all preserves order within a chunk and
chunks are concatenated in sequence), each marked success or failure with
one item's failure never removing another item's entry, and successes plus
failures equal the input count. -/
theorem claim_C5 (ids : List String) (bs : Int)
    (op : String → Except String Unit) (hbs : 1 ≤ bs) :
    runBatch ids bs op = some (ids.map (itemResult op)) ∧
    (ids.map (itemResult op)).length = ids.length ∧
    (ids.map (itemResult op)).map (fun r => r.messageId) = ids ∧
    successCount (ids.map (itemResult op)) +
      failureCount (ids.map (itemResult op)) = ids.length := by
  refine ⟨?_, by simp, ?_, ?_⟩
  · rw [runBatch]
    have h := batchLoop_pos ids bs op hbs ids.length 0 [] le_rfl (by omega)
    simpa using h
  · rw [List.map_map]
    have : ∀ s ∈ ids, ((fun r => r.messageId) ∘ itemResult op) s = s := by
      intro s _
      exact itemResult_messageId op s
    rw [List.map_congr_left this]
    exact List.map_id ids
  · rw [successCount, failureCount]
    have h := length_filter_add_length_filter_not (fun r : ItemResult => r.success)
      (ids.map (itemResult op))
    simpa using h

/-- C5 witness: three ids, chunk size two, the middle operation failing:
one entry per id in order, 2 successes plus 1 failure. -/
theorem claim_C5_witness :
    runBatch ["a", "b", "c"] 2
        (fun s => if s = "b" then Except.error "boom" else Except.ok ()) =
      some [⟨"a", true, none⟩, ⟨"b", false, some "boom"⟩, ⟨"c", true, none⟩] ∧
    ([⟨"a", true, none⟩, ⟨"b", false, some "boom"⟩,
      ⟨"c", true, none⟩] : List ItemResult).length = 3 := by
  have h := claim_C5 ["a", "b", "c"] 2
    (fun s => if s = "b" then Except.error "boom" else Except.ok ()) (by omega)
  refine ⟨?_, by decide⟩
  rw [h.1]
  decide

/-- C9 (amended): the loop terminates for every input once batchSize ≥ 1;
for a non-empty id list and batchSize ≤ 0 it never terminates under any
amount of gas — the index never increases (for batchSize = 0 every slice is
also empty, while a negative batchSize moves the index backwards and its
first slice can be non-empty) — so the spec's chunk_size > 0 precondition
is not enforced by the code. -/
theorem claim_C9 :
    (∀ (ids : List String) (bs : Int) (op : String → Except String Unit),
        1 ≤ bs → runBatch ids bs op = some (ids.map (itemResult op))) ∧
    (∀ (ids : List String) (bs : Int) (op : String → Except String Unit)
        (gas : Nat), ids ≠ [] → bs ≤ 0 →
        batchLoop ids bs op gas 0 [] = none) ∧
    (∀ (ids : List String) (bs : Int) (op : String → Except String Unit)
        (i : Int) (acc : List ItemResult), bs ≤ 0 →
        (batchStep ids bs op i acc).1 ≤ i) ∧
    (∀ (ids : List String) (op : String → Except String Unit) (i : Int)
        (acc : List ItemResult), (batchStep ids 0 op i acc).2 = acc) := by
  refine ⟨?_, ?_, ?_, ?_⟩
  · intro ids bs op hbs
    rw [runBatch]
    have h := batchLoop_pos ids bs op hbs ids.length 0 [] le_rfl (by omega)
    simpa using h
  · intro ids bs op gas hne hbs
    refine batchLoop_nonpos ids bs op hbs gas 0 [] ?_
    have : ids.length ≠ 0 := fun h => hne (List.length_eq_zero.mp h)
    omega
  · intro ids bs op i acc hbs
    simp only [batchStep]
    omega
  · intro ids op i acc
    simp only [batchStep, jsSlice_zero_step, List.map_nil, List.append_nil]

/-- C9 counterexample: with batchSize = -1 the first iteration's slice
(from index 0) is non-empty and the index changes, so the claim's "the loop
index never advances with an empty slice per iteration" is false as stated
for negative batch sizes. -/
theorem claim_C9_counterexample :
    (batchStep ["a", "b"] (-1) (fun _ => Except.ok ()) 0 []).2 ≠ [] ∧
    (batchStep ["a", "b"] (-1) (fun _ => Except.ok ()) 0 []).1 ≠ 0 := by
  decide

/-- C9 witness: the amended statement at concrete inputs: termination with
batchSize 1, non-termination with batchSize 0 on a singleton list, a
non-increasing index for batchSize -3, and an empty slice at batchSize 0. -/
theorem claim_C9_witness :
    runBatch ["a"] 1 (fun _ => Except.ok ()) =
      some [⟨"a", true, none⟩] ∧
    batchLoop ["a"] 0 (fun _ => Except.ok ()) 5 0 [] = none ∧
    (batchStep ["a"] (-3) (fun _ => Except.ok ()) 2 []).1 ≤ 2 ∧
    (batchStep ["a", "b", "c"] 0 (fun _ => Except.ok ()) 1 []).2 = [] := by
  refine ⟨?_, ?_, ?_, ?_⟩
  · rw [claim_C9.1 ["a"] 1 (fun _ => Except.ok ()) (by omega)]
    decide
  · exact claim_C9.2.1 ["a"] 0 (fun _ => Except.ok ()) 5 (by decide) (by omega)
  · exact claim_C9.2.2.1 ["a"] (-3) (fun _ => Except.ok ()) 2 [] (by omega)
  · exact claim_C9.2.2.2 ["a", "b", "c"] (fun _ => Except.ok ()) 1 []

/-! ## Auth / listing / persistence theorems (C6, C7, C8, C10) -/

/-- C6: a callback request without a truthy authorization code makes the
handler throw "No authorization code received", which the catch block turns
into a 400 response, a server.close() and a rejected promise with no token
saved (this includes a callback carrying error=access_denied, since the
handler only inspects the code parameter); and saveToken runs only after a
successful code-for-token exchange, never on a failure path. -/
theorem claim_C6 {α : Type} (exchange : String → Except String α)
    (req : CallbackRequest) (hpath : req.isCallbackPath = true)
    (hcode : strTruthy req.code = false) :
    handleCallback exchange req =
      ⟨some 400, true, some (Except.error "No authorization code received"),
       none⟩ ∧
    (∀ req2 : CallbackRequest, ∀ t : α,
        (handleCallback exchange req2).savedToken = some t →
        ∃ c, req2.code = some c ∧ exchange c = Except.ok t ∧
          handleCallback exchange req2 =
            ⟨some 200, true, some (Except.ok ()), some t⟩) := by
  constructor
  · rw [handleCallback, if_pos hpath]
    cases hc : req.code with
    | none => rfl
    | some c =>
      have hce : c.isEmpty = true := by
        rw [hc, strTruthy] at hcode
        simpa using hcode
      simp [hce]
  · intro req2 t hsave
    rw [handleCallback] at hsave ⊢
    by_cases hp : req2.isCallbackPath = true
    · rw [if_pos hp] at hsave ⊢
      cases hc : req2.code with
      | none => simp [hc] at hsave
      | some c =>
        by_cases hce : c.isEmpty = true
        · simp [hc, hce] at hsave
        · cases hex : exchange c with
          | ok t2 =>
            simp [hc, hce, hex] at hsave
            subst hsave
            refine ⟨c, rfl, hex, ?_⟩
            simp [hc, hce, hex]
          | error e => simp [hc, hce, hex] at hsave
    · rw [if_neg hp] at hsave
      simp at hsave

/-- C6 witness: a callback with error=access_denied and no code rejects,
closes the listener and saves nothing. -/
theorem claim_C6_witness :
    handleCallback (fun _ => (Except.error "denied" : Except String Unit))
        ⟨true, none, some "access_denied"⟩ =
      ⟨some 400, true, some (Except.error "No authorization code received"),
       none⟩ :=
  (claim_C6 (fun _ => (Except.error "denied" : Except String Unit))
    ⟨true, none, some "access_denied"⟩ rfl rfl).1

/-- C7 counterexample: while an interactive authorization awaits its
callback, the gmailClient global is still null (its assignment follows the
await), so a second initializeGmailClient call decides to start another
interactive authorization whose action sequence again listens on port 3000;
no AuthorizationInProgress rejection or waiting path exists in the code. -/
theorem claim_C7_counterexample :
    initializeAction none false = InitAction.interactiveAuth ∧
    AuthAction.listenPort 3000 ∈ authFlowActions := by decide

/-- C7 (amended): initializeGmailClient has no in-flight guard: whenever
gmailClient is unset — which it still is while an authorization awaits its
callback — and no service-account credentials are configured, the call
starts interactive authorization, whose flow always binds port 3000; only a
completed authorization (gmailClient set) short-circuits to the cache. -/
theorem claim_C7 (gmailClient : Option Unit) (hasServiceCreds : Bool) :
    (gmailClient = none → hasServiceCreds = false →
      initializeAction gmailClient hasServiceCreds =
        InitAction.interactiveAuth ∧
      AuthAction.listenPort 3000 ∈ authFlowActions) ∧
    (∀ c, gmailClient = some c →
      initializeAction gmailClient hasServiceCreds = InitAction.useCached) := by
  constructor
  · intro h1 h2
    subst h1
    subst h2
    exact ⟨rfl, by decide⟩
  · intro c hc
    subst hc
    rfl

/-- C7 witness: the amended statement at concrete states: an empty cache
starts interactive auth (listening on 3000) and a set cache is returned. -/
theorem claim_C7_witness :
    (initializeAction none false = InitAction.interactiveAuth ∧
     AuthAction.listenPort 3000 ∈ authFlowActions) ∧
    initializeAction (some ()) false = InitAction.useCached :=
  ⟨(claim_C7 none false).1 rfl rfl, (claim_C7 (some ()) false).2 () rfl⟩

/-- C8: on a non-empty result list of length M, gmail_search_emails
enriches only messages.slice(0, min(10, M)) and shows at most min(10, M)
entries (a failing per-item metadata fetch is skipped) while reporting the
full count M; gmail_list_threads likewise enriches threads.slice(0, 10),
showing exactly min(10, M) entries, while reporting the full count. -/
theorem claim_C8 {α β : Type} (messages : List String)
    (enrich : String → Option α) (threads : List String) (enrichT : String → β)
    (hm : messages ≠ []) (ht : threads ≠ []) :
    searchEmailsOutput messages enrich =
      ListOutput.found messages.length
        ((messages.take (min 10 messages.length)).filterMap enrich) ∧
    ((messages.take (min 10 messages.length)).filterMap enrich).length ≤
      min 10 messages.length ∧
    listThreadsOutput threads enrichT =
      ListOutput.found threads.length ((threads.take 10).map enrichT) ∧
    ((threads.take 10).map enrichT).length = min 10 threads.length := by
  have hm0 : messages.length ≠ 0 := fun h => hm (List.length_eq_zero.mp h)
  have ht0 : threads.length ≠ 0 := fun h => ht (List.length_eq_zero.mp h)
  refine ⟨?_, ?_, ?_, ?_⟩
  · rw [searchEmailsOutput, if_neg hm0]
  · calc ((messages.take (min 10 messages.length)).filterMap enrich).length
        ≤ (messages.take (min 10 messages.length)).length :=
          List.length_filterMap_le _ _
      _ = min (min 10 messages.length) messages.length :=
          List.length_take _ _
      _ = min 10 messages.length := by omega
  · rw [listThreadsOutput, if_neg ht0]
  · rw [List.length_map, List.length_take]

/-- C8 witness: twelve matches show ten enriched entries with the full
count of twelve reported; three threads show all three with count three. -/
theorem claim_C8_witness :
    searchEmailsOutput ["a", "b", "c", "d", "e", "f", "g", "h", "i", "j",
        "k", "l"] (fun s => some s) =
      ListOutput.found 12 ["a", "b", "c", "d", "e", "f", "g", "h", "i", "j"] ∧
    listThreadsOutput ["x", "y", "z"] (fun s => s) =
      ListOutput.found 3 ["x", "y", "z"] := by
  have h := claim_C8 ["a", "b", "c", "d", "e", "f", "g", "h", "i", "j", "k",
    "l"] (fun s => some s) ["x", "y", "z"] (fun s => s) (by decide) (by decide)
  constructor
  · rw [h.1]
    decide
  · rw [h.2.2.1]
    decide

/-- C10: loadToken never throws — the try/catch swallows a read failure and
a JSON.parse failure alike, returning null, and an absent file returns null
without reading, so a corrupted persisted record yields the same result as
an absent one; the file state is left untouched on every path; a parsable
record is returned. -/
theorem claim_C10 {τ : Type} (parse : String → Except String τ)
    (st : TokenFileState) :
    (loadToken parse st).2 = st ∧
    (st = TokenFileState.absent → (loadToken parse st).1 = none) ∧
    (st = TokenFileState.unreadable → (loadToken parse st).1 = none) ∧
    (∀ s e, st = TokenFileState.stored s → parse s = Except.error e →
      (loadToken parse st).1 = (loadToken parse TokenFileState.absent).1) ∧
    (∀ s t, st = TokenFileState.stored s → parse s = Except.ok t →
      (loadToken parse st).1 = some t) := by
  refine ⟨rfl, ?_, ?_, ?_, ?_⟩
  · intro h
    subst h
    rfl
  · intro h
    subst h
    rfl
  · intro s e h hp
    subst h
    simp [loadToken, loadTokenBody, tokenFileExists, readTokenFile, hp,
      bind, Except.bind, Functor.map, Except.map, pure, Except.pure]
  · intro s t h hp
    subst h
    simp [loadToken, loadTokenBody, tokenFileExists, readTokenFile, hp,
      bind, Except.bind, Functor.map, Except.map, pure, Except.pure]

/-- C10 witness: a stored record that fails to parse returns null exactly
like an absent file, and the corrupt file is left in place. -/
theorem claim_C10_witness :
    (loadToken (fun _ => (Except.error "Unexpected token" : Except String Nat))
        (TokenFileState.stored "not json")).2 =
      TokenFileState.stored "not json" ∧
    (loadToken (fun _ => (Except.error "Unexpected token" : Except String Nat))
        (TokenFileState.stored "not json")).1 =
      (loadToken (fun _ => (Except.error "Unexpected token" : Except String Nat))
        TokenFileState.absent).1 :=
  ⟨(claim_C10 (fun _ => (Except.error "Unexpected token" : Except String Nat))
      (TokenFileState.stored "not json")).1,
   (claim_C10 (fun _ => (Except.error "Unexpected token" : Except String Nat))
      (TokenFileState.stored "not json")).2.2.2.1 "not json" "Unexpected token"
      rfl rfl⟩

end Gmail